import Mathlib

/- Verification development for the Sublime Text Emmet plugin glue module
   emmet-plugin.py. Every definition below is a shallow embedding of a
   function of that module; the external collaborators (the JavaScript
   engine entry points pyExpandAbbreviationAsYouType, pyWrapAsYouType and
   pyCaptureWrappingRange, the completions module, the host view and the
   settings store) are modelled as explicit parameters, following the
   interface the specification gives for them. -/

/- Whitespace class of the byte-string regex \s used by get_line_padding
   (ASCII semantics, as in Python 2 re without re.UNICODE). -/
def isPySpace (c : Char) : Bool :=
  c == ' ' || c == '\t' || c == '\n' || c == '\r' || c == '\x0b' || c == '\x0c'

/- Line boundary characters recognised by Python splitlines on text. -/
def pyLineBreak (c : Char) : Bool :=
  c == '\n' || c == '\r' || c == '\x0b' || c == '\x0c' || c == '\x1c' ||
  c == '\x1d' || c == '\x1e' || c == '\x85' || c == '\u2028' || c == '\u2029'

/- Worker for splitlines: walks the character list accumulating the current
   line in reverse; the flag records whether the previous character was a
   carriage return, so that a directly following newline is swallowed as
   part of the same CRLF boundary. -/
def splitlinesGo : List Char → List Char → Bool → List (List Char)
  | [], acc, _ => if acc.isEmpty then [] else [acc.reverse]
  | c :: rest, acc, afterCR =>
    if afterCR && c == '\n' then splitlinesGo rest acc false
    else if pyLineBreak c then acc.reverse :: splitlinesGo rest [] (c == '\r')
    else splitlinesGo rest (c :: acc) false

/- Models text.splitlines() as used by unindent_text. -/
def splitlines (s : String) : List String :=
  (splitlinesGo s.data [] false).map String.mk

/- Models line.startswith(pad). -/
def py_startswith (line pad : String) : Bool :=
  line.data.take pad.data.length == pad.data

/- The body of the loop of unindent_text: the line becomes line[len(pad):]
   when line.startswith(pad) holds, and is left unchanged otherwise. -/
def unindent_line (pad line : String) : String :=
  if py_startswith line pad then String.mk (line.data.drop pad.data.length) else line

/- Models unindent_text: split the text into lines, strip the pad from
   every line that starts with it, and join the lines with a newline. -/
def unindent_text (text pad : String) : String :=
  String.intercalate "\n" ((splitlines text).map (unindent_line pad))

/- Models get_line_padding: the match of the greedy regex ^(\s+) against
   the line, hence the maximal run of leading whitespace, with the empty
   string when the first character is not whitespace. -/
def get_line_padding (line : String) : String :=
  String.mk (line.data.takeWhile isPySpace)

lemma drop_length_takeWhile {p : Char → Bool} :
    ∀ l : List Char, l.drop (l.takeWhile p).length = l.dropWhile p := by
  intro l
  induction l with
  | nil => rfl
  | cons a t ih =>
    by_cases hp : p a <;>
      simp [List.takeWhile_cons, List.dropWhile_cons, hp, ih]

lemma dropWhile_head_false {p : Char → Bool} :
    ∀ (l : List Char) (c : Char), (l.dropWhile p).head? = some c → p c = false := by
  intro l
  induction l with
  | nil => intro c h; simp [List.dropWhile] at h
  | cons a t ih =>
    intro c h
    by_cases hp : p a
    · rw [List.dropWhile_cons_of_pos hp] at h
      exact ih c h
    · rw [List.dropWhile_cons_of_neg hp] at h
      simp at h
      subst h
      simpa using hp

lemma mem_takeWhile_true {p : Char → Bool} :
    ∀ (l : List Char), ∀ c ∈ l.takeWhile p, p c = true := by
  intro l
  induction l with
  | nil => intro c h; simp [List.takeWhile] at h
  | cons a t ih =>
    intro c h
    by_cases hp : p a
    · rw [List.takeWhile_cons_of_pos hp] at h
      rcases List.mem_cons.mp h with rfl | h2
      · exact hp
      · exact ih c h2
    · rw [List.takeWhile_cons_of_neg hp] at h
      simp at h

/-- C9: unindent_text returns the lines of the text joined by a newline,
where a line starting with the pad has exactly that prefix removed and any
other line is unchanged; and get_line_padding returns the maximal leading
whitespace prefix of the line, so in particular the empty string when the
line starts with a non-whitespace character. -/
theorem claim9_unindent_and_padding (text pad line : String) :
    unindent_text text pad
      = String.intercalate "\n" ((splitlines text).map (unindent_line pad))
  ∧ (py_startswith line pad = true →
      String.mk (pad.data ++ (unindent_line pad line).data) = line)
  ∧ (py_startswith line pad = false → unindent_line pad line = line)
  ∧ String.mk ((get_line_padding line).data
      ++ line.data.drop (get_line_padding line).data.length) = line
  ∧ (∀ c ∈ (get_line_padding line).data, isPySpace c = true)
  ∧ (∀ c, (line.data.drop (get_line_padding line).data.length).head? = some c →
      isPySpace c = false) := by
  refine ⟨rfl, ?_, ?_, ?_, ?_, ?_⟩
  · intro h
    have htake : line.data.take pad.data.length = pad.data := by
      simpa [py_startswith] using h
    have hsplit : pad.data ++ line.data.drop pad.data.length = line.data := by
      have h2 := List.take_append_drop pad.data.length line.data
      rw [htake] at h2
      exact h2
    simp only [unindent_line, h, if_true]
    show String.mk (pad.data ++ line.data.drop pad.data.length) = line
    rw [hsplit]
  · intro h
    simp [unindent_line, h]
  · show String.mk (line.data.takeWhile isPySpace
      ++ line.data.drop (line.data.takeWhile isPySpace).length) = line
    rw [drop_length_takeWhile, List.takeWhile_append_dropWhile]
  · intro c hc
    exact mem_takeWhile_true line.data c hc
  · intro c hc
    have hc2 : (line.data.dropWhile isPySpace).head? = some c := by
      rw [← drop_length_takeWhile]
      exact hc
    exact dropWhile_head_false line.data c hc2

/-- Witness for claim 9: the theorem applied at concrete lines, with its
hypotheses discharged by computation. -/
theorem claim9_unindent_and_padding_witness :
    String.mk (("  " : String).data ++ (unindent_line "  " "  ab").data) = "  ab"
  ∧ unindent_line "  " "ab" = "ab" := by
  exact ⟨(claim9_unindent_and_padding "x" "  " "  ab").2.1 (by decide),
         (claim9_unindent_and_padding "x" "  " "ab").2.2.1 (by decide)⟩

example : splitlines "a\nb" = ["a", "b"] := by decide
example : splitlines "" = [] := by decide
example : splitlines "a\r\nb\n" = ["a", "b"] := by decide
example : unindent_text "  a\n    b\nc" "  " = "a\n  b\nc" := by decide
example : get_line_padding "  \ta" = "  \t" := by decide
example : get_line_padding "a " = "" := by decide

/- Models view.substr(sublime.Region(a, b)): the characters of the
   document between the two offsets. -/
def view_substr (doc : String) (a b : Nat) : String :=
  String.mk ((doc.data.drop a).take (b - a))

/- Offset of the first character of the line containing position p: zero,
   or one past the last newline among the first p characters. -/
def line_start (doc : String) (p : Nat) : Nat :=
  ((doc.data.take p).foldl
    (fun acc c => (acc.1 + 1, if c == '\n' then acc.1 + 1 else acc.2))
    ((0 : Nat), (0 : Nat))).2

/- Offset just past the last character of the line containing position p:
   the position of the next newline at or after p, or the document end. -/
def line_end (doc : String) (p : Nat) : Nat :=
  p + ((doc.data.drop p).takeWhile (fun c => !(c == '\n'))).length

/- Models view.line(region) for the region (a, b): the full text of the
   lines the region touches, without the trailing newline. -/
def view_line (doc : String) (a b : Nat) : String :=
  view_substr doc (line_start doc a) (line_end doc b)

/- The state WrapAsYouType.setup leaves behind: the selection it set (the
   value none records that it returned early without touching the
   selection) and the stored wrapped text self.selection. -/
structure WrapSetupResult where
  sel : Option (Nat × Nat)
  selection : String

/-- Modelled from the spec at its boundary: capture is the result of the
excluded engine query pyCaptureWrappingRange (captureWrapTarget returns an
optional WrapRange). wrap_setup itself models WrapAsYouType.setup:
prior_selection is the value self.selection holds when the command runs
(the class default is the empty string, but the attribute persists on the
command object across invocations); on a captured range the selection is
set to that range and the wrapped text snapshot is the selected text
unindented by the padding of its line. -/
def wrap_setup (prior_selection doc : String) (capture : Option (Nat × Nat)) :
    WrapSetupResult :=
  match capture with
  | Option.none => { sel := Option.none, selection := prior_selection }
  | some (a, b) =>
    { sel := some (a, b),
      selection := unindent_text (view_substr doc a b)
        (get_line_padding (view_line doc a b)) }

/- Converts the result of an engine call that may raise into the value the
   plugin sees: an exception is swallowed and becomes None. -/
def exc_to_option (r : Except Unit String) : Option String :=
  match r with
  | Except.ok v => some v
  | Except.error _ => Option.none

/-- Modelled from the spec at its boundary: the engine parameter stands for
the excluded pyExpandAbbreviationAsYouType entry point, a call that either
returns the expansion or raises a parse or resolve error. The function
itself models ExpandAsYouType.filter_input, which swallows any such
exception and returns None. -/
def expand_filter_input (engine : String → Except Unit String) (abbr : String) :
    Option String :=
  exc_to_option (engine abbr)

/-- Modelled from the spec at its boundary: wrap_engine stands for the
excluded pyWrapAsYouType entry point, taking the abbreviation and the
wrapped text. The function itself models WrapAsYouType.filter_input, which
passes the stored snapshot self.selection and swallows exceptions. -/
def wrap_filter_input (wrap_engine : String → String → Except Unit String)
    (stored_selection : String) (abbr : String) : Option String :=
  exc_to_option (wrap_engine abbr stored_selection)

/-- Modelled from the spec: what claim 4 asserts filter_input does — apply
the wrap abbreviation to the wrapped text as it stands in the live
document at apply time, re-reading the captured range from that document.
This definition follows the words of the claim and is compared against the
source definition wrap_filter_input. -/
def wrap_filter_input_from_live_doc (wrap_engine : String → String → Except Unit String)
    (live_doc : String) (a b : Nat) (abbr : String) : Option String :=
  exc_to_option (wrap_engine abbr (unindent_text (view_substr live_doc a b)
    (get_line_padding (view_line live_doc a b))))

/-- Counterexample to C4: a wrap session set up on the document "ab" with
captured range (0, 2) stores the snapshot "ab"; if the live document then
reads "xy" at apply time, filter_input still hands the engine the snapshot
"ab", not the live text "xy" — the two sides differ for the engine that
echoes its wrapped-text argument. -/
theorem claim4_counterexample :
    wrap_filter_input (fun _ s => Except.ok s)
        (wrap_setup "" "ab" (some (0, 2))).selection "w"
      ≠ wrap_filter_input_from_live_doc (fun _ s => Except.ok s) "xy" 0 2 "w" := by
  decide

/-- C4 amended: the wrapped text is captured exactly once by setup, from
the document as it stood at session start (the captured range unindented
by the padding of its line), and every later application of the wrap
abbreviation uses that stored snapshot; the live document is not re-read
at apply time. -/
theorem claim4_amended_snapshot (wrap_engine : String → String → Except Unit String)
    (prior doc : String) (a b : Nat) (abbr : String) :
    wrap_filter_input wrap_engine (wrap_setup prior doc (some (a, b))).selection abbr
      = exc_to_option (wrap_engine abbr (unindent_text (view_substr doc a b)
          (get_line_padding (view_line doc a b)))) := rfl

/-- Counterexample to C8: the stored wrapped text does not stay at its
empty default on an invocation whose capture query returns no range. The
attribute persists on the command object, so after a first invocation that
captured the range (0, 2) of the document "ab", a second invocation with
nothing to wrap still stores "ab", not the empty default. -/
theorem claim8_counterexample :
    (wrap_setup (wrap_setup "" "ab" (some (0, 2))).selection "" Option.none).selection
        = "ab"
  ∧ ("ab" : String) ≠ "" := by
  exact ⟨by decide, by decide⟩

/-- C8 amended: when the capture query returns no range, setup returns
early without modifying the editor selection and leaves the stored
wrapped text unchanged — it is the empty default only on a command object
no earlier invocation wrote to; when a range is returned, the selection is
set to exactly that range and the stored wrapped text is that selection
unindented by the padding of its line. -/
theorem claim8_amended_setup (prior doc : String) (a b : Nat) :
    wrap_setup prior doc Option.none
        = { sel := Option.none, selection := prior }
  ∧ wrap_setup prior doc (some (a, b))
        = { sel := some (a, b),
            selection := unindent_text (view_substr doc a b)
              (get_line_padding (view_line doc a b)) } :=
  ⟨rfl, rfl⟩

example : (wrap_setup "" "  hello\nx" (some (2, 7))).selection = "hello" := by decide

/- Deferred tasks the controller schedules through sublime.set_timeout:
   the closure running the undo command, and the deferred inner_insert
   closure carrying the abbreviation of its call. -/
inductive AytTask where
  | undoTask : AytTask
  | innerInsert : String → AytTask
deriving DecidableEq

/- State of an as-you-type session: the stack of insertions the session
   has applied to the document (the undo command pops the most recent
   one), the self.erase flag, and the FIFO queue of deferred tasks
   scheduled through sublime.set_timeout and not yet executed. -/
structure AytState where
  doc : List String
  erase : Bool
  queue : List AytTask
deriving DecidableEq

/- Text the pending insertions contribute to the document. -/
def docText (st : AytState) : List Char :=
  (st.doc.map String.data).flatten

/- Models CommandsAsYouTypeBase.insert, the synchronous part run inside
   the input panel change callback. A falsy abbreviation (the empty
   string) while self.erase is set only schedules the undo and clears the
   flag; on any other input, undo of the previous insertion (scheduled
   only when self.erase is set, as self.undo checks the flag
   synchronously) and the deferred inner_insert are scheduled, in that
   order. No document edit happens synchronously. -/
def ayt_insert (abbr : String) (st : AytState) : AytState :=
  if abbr = "" ∧ st.erase = true then
    { st with erase := false, queue := st.queue ++ [AytTask.undoTask] }
  else
    { st with queue := st.queue
        ++ (if st.erase = true then [AytTask.undoTask] else [])
        ++ [AytTask.innerInsert abbr] }

/- Executes one deferred task. The undo closure runs the undo command,
   popping the last applied insertion. inner_insert computes
   self.filter_input(abbr) or the empty string and inserts it through
   run_command inside one edit group; run_command returns None, which is
   not False, so self.erase is set. fi is the filter_input of the
   concrete command class. -/
def ayt_run_task (fi : String → Option String) (st : AytState) (t : AytTask) :
    AytState :=
  match t with
  | AytTask.undoTask => { st with doc := st.doc.dropLast }
  | AytTask.innerInsert abbr =>
    { st with doc := st.doc ++ [(fi abbr).getD ""], erase := true }

def ayt_run_tasks (fi : String → Option String) : AytState → List AytTask → AytState
  | st, [] => st
  | st, t :: ts => ayt_run_tasks fi (ayt_run_task fi st t) ts

/- Runs every queued deferred task in FIFO order: the sublime.set_timeout
   queue is drained on the main thread, in issuance order, between two
   input change callbacks. -/
def ayt_drain (fi : String → Option String) (st : AytState) : AytState :=
  ayt_run_tasks fi { st with queue := [] } st.queue

/- One completed as-you-type call: the synchronous insert callback
   followed by the drain of the deferred task queue before the next input
   change arrives. -/
def ayt_step (fi : String → Option String) (st : AytState) (abbr : String) :
    AytState :=
  ayt_drain fi (ayt_insert abbr st)

/- State right after CommandsAsYouTypeBase.run: no insertion applied,
   self.erase cleared, nothing scheduled. -/
def ayt_init : AytState := { doc := [], erase := false, queue := [] }

/- Invariant of completed as-you-type states: no pending task, and the
   erase flag records whether exactly one insertion is on the stack. -/
def AytInv (st : AytState) : Prop :=
  st.queue = [] ∧
    ((st.erase = true ∧ ∃ v, st.doc = [v]) ∨ (st.erase = false ∧ st.doc = []))

lemma ayt_init_inv : AytInv ayt_init := ⟨rfl, Or.inr ⟨rfl, rfl⟩⟩

lemma ayt_step_spec (fi : String → Option String) (st : AytState) (abbr : String)
    (h : AytInv st) :
    ayt_step fi st abbr =
      if abbr = "" ∧ st.erase = true then { doc := [], erase := false, queue := [] }
      else { doc := [(fi abbr).getD ""], erase := true, queue := [] } := by
  obtain ⟨d, e, q⟩ := st
  obtain ⟨hq, hc⟩ := h
  simp only at hq
  subst hq
  rcases hc with ⟨he, v, hd⟩ | ⟨he, hd⟩ <;> simp only at he hd <;> subst he <;>
    subst hd <;> by_cases ha : abbr = "" <;>
    simp [ayt_step, ayt_insert, ayt_drain, ayt_run_tasks, ayt_run_task, ha]

lemma ayt_inv_step (fi : String → Option String) (st : AytState) (abbr : String)
    (h : AytInv st) : AytInv (ayt_step fi st abbr) := by
  rw [ayt_step_spec fi st abbr h]
  by_cases ha : abbr = "" ∧ st.erase = true <;> simp [AytInv, ha]

lemma ayt_foldl_inv (fi : String → Option String) :
    ∀ (abbrs : List String) (st : AytState), AytInv st →
      AytInv (abbrs.foldl (ayt_step fi) st)
  | [], _, h => h
  | a :: as, st, h => ayt_foldl_inv fi as _ (ayt_inv_step fi st a h)

lemma dropLast_append_of_getLast {α : Type} :
    ∀ (l : List α) (a : α), l.getLast? = some a → l.dropLast ++ [a] = l := by
  intro l
  induction l with
  | nil => intro a h; simp at h
  | cons x xs ih =>
    intro a h
    cases xs with
    | nil =>
      simp [List.getLast?] at h
      simp [h]
    | cons y ys =>
      have h2 : (y :: ys).getLast? = some a := by
        simpa [List.getLast?_cons_cons] using h
      have h3 := ih a h2
      simp only [List.dropLast_cons₂, List.cons_append, h3]

/-- C1: modelling each as-you-type input change as the synchronous insert
callback followed by the drain, in issuance order, of the FIFO deferred
task queue (the sublime.set_timeout queue — this is what the phrase the
calls complete in order means), the document edits are applied in
issuance order: after any sequence of calls whose last abbreviation is
non-empty — in particular after the inputs d, di and div — the document
stack holds exactly the expansion of the last input, no residual text of
any earlier expansion survives, and no stale deferred apply remains
queued behind a newer one. -/
theorem claim1_ayt_ordering (fi : String → Option String) (abbrs : List String)
    (a : String) (hlast : abbrs.getLast? = some a) (ha : a ≠ "") :
    (abbrs.foldl (ayt_step fi) ayt_init).doc = [(fi a).getD ""]
  ∧ (abbrs.foldl (ayt_step fi) ayt_init).erase = true
  ∧ (abbrs.foldl (ayt_step fi) ayt_init).queue = [] := by
  have hdec := dropLast_append_of_getLast abbrs a hlast
  have hinv := ayt_foldl_inv fi abbrs.dropLast ayt_init ayt_init_inv
  have hfold : abbrs.foldl (ayt_step fi) ayt_init
      = ayt_step fi (abbrs.dropLast.foldl (ayt_step fi) ayt_init) a := by
    conv_lhs => rw [← hdec]
    rw [List.foldl_append]
    rfl
  have hcond : ¬(a = ""
      ∧ (abbrs.dropLast.foldl (ayt_step fi) ayt_init).erase = true) :=
    fun hc => ha hc.1
  rw [hfold, ayt_step_spec fi _ a hinv, if_neg hcond]
  exact ⟨rfl, rfl, rfl⟩

/-- Witness for claim 1: the inputs d, di, div completed in order leave
exactly the expansion of div on the document stack. -/
theorem claim1_ayt_ordering_witness :
    ((["d", "di", "div"] : List String).foldl
        (ayt_step (fun s => some ("<" ++ s ++ ">"))) ayt_init).doc = ["<div>"] := by
  have h := claim1_ayt_ordering (fun s => some ("<" ++ s ++ ">"))
    ["d", "di", "div"] "div" (by decide) (by decide)
  simpa using h.1

/-- C2: on an engine exception ExpandAsYouType.filter_input returns None
rather than propagating it; a falsy abbreviation while an insertion is
pending makes insert schedule only the undo and clear the erase flag; and
a completed call whose input raises in the engine leaves the document
with the previous insertion undone and no new text applied. -/
theorem claim2_ayt_error_swallowed (engine : String → Except Unit String)
    (abbr : String) (st : AytState) (e : Unit)
    (herr : engine abbr = Except.error e) (hq : st.queue = [])
    (he : st.erase = true) :
    expand_filter_input engine abbr = Option.none
  ∧ ayt_insert "" st
      = { st with erase := false, queue := st.queue ++ [AytTask.undoTask] }
  ∧ docText (ayt_step (expand_filter_input engine) st abbr)
      = docText { st with doc := st.doc.dropLast } := by
  have hfi : expand_filter_input engine abbr = Option.none := by
    simp [expand_filter_input, exc_to_option, herr]
  refine ⟨hfi, by simp [ayt_insert, he], ?_⟩
  by_cases ha : abbr = ""
  · subst ha
    simp [ayt_step, ayt_insert, ayt_drain, ayt_run_tasks, ayt_run_task, hq, he,
      docText]
  · simp [ayt_step, ayt_insert, ayt_drain, ayt_run_tasks, ayt_run_task, hq, he,
      ha, hfi, docText]

/-- Witness for claim 2: an engine that always raises, a pending
insertion of the d expansion, and the input di. -/
theorem claim2_ayt_error_swallowed_witness :
    expand_filter_input (fun _ => (Except.error () : Except Unit String)) "di"
        = Option.none
  ∧ ayt_insert "" { doc := ["<d>"], erase := true, queue := [] }
      = { doc := ["<d>"], erase := false, queue := [] ++ [AytTask.undoTask] }
  ∧ docText (ayt_step
        (expand_filter_input (fun _ => (Except.error () : Except Unit String)))
        { doc := ["<d>"], erase := true, queue := [] } "di")
      = docText { doc := ([] : List String), erase := true, queue := [] } := by
  exact claim2_ayt_error_swallowed (fun _ => (Except.error () : Except Unit String))
    "di" { doc := ["<d>"], erase := true, queue := [] } () rfl rfl rfl

/-- C3: for a non-empty input the insert callback performs no document
edit synchronously; it only appends deferred tasks to the queue — the
undo of the previous insertion (when one is pending) first, the deferred
inner_insert of the new expansion second. -/
theorem claim3_ayt_deferred (abbr : String) (st : AytState) (ha : abbr ≠ "") :
    (ayt_insert abbr st).doc = st.doc
  ∧ (ayt_insert abbr st).erase = st.erase
  ∧ (ayt_insert abbr st).queue
      = st.queue ++ (if st.erase = true then [AytTask.undoTask] else [])
        ++ [AytTask.innerInsert abbr] := by
  have hcond : ¬(abbr = "" ∧ st.erase = true) := fun hc => ha hc.1
  simp [ayt_insert, hcond]

/-- Witness for claim 3: the insert callback for the input div with an
insertion pending schedules the undo before the new insert and leaves
the document alone. -/
theorem claim3_ayt_deferred_witness :
    (ayt_insert "div" { doc := ["<d>"], erase := true, queue := [] }).doc = ["<d>"]
  ∧ (ayt_insert "div" { doc := ["<d>"], erase := true, queue := [] }).erase = true
  ∧ (ayt_insert "div" { doc := ["<d>"], erase := true, queue := [] }).queue
      = [] ++ (if (true : Bool) = true then [AytTask.undoTask] else [])
        ++ [AytTask.innerInsert "div"] := by
  exact claim3_ayt_deferred "div" { doc := ["<d>"], erase := true, queue := [] }
    (by decide)

/-- Modelled from the spec: the scope selector constants EMMET_SCOPE,
HTML_INSIDE_TAG and HTML_INSIDE_TAG_ATTRIBUTE live in the excluded
completions module; only their identity matters to the plugin logic, so
they are dedicated constructors here, and the constructor other carries an
arbitrary selector string such as the
disable_tab_abbreviations_for_scopes setting. -/
inductive ScopeSel where
  | EMMET_SCOPE : ScopeSel
  | HTML_INSIDE_TAG : ScopeSel
  | HTML_INSIDE_TAG_ATTRIBUTE : ScopeSel
  | other : String → ScopeSel
deriving DecidableEq

/- The two completion handlers of TabExpandHandler. -/
inductive CmplHandler where
  | html_elements_attributes : CmplHandler
  | html_attributes_values : CmplHandler
deriving DecidableEq

/- The __name__ of each handler, the string the blacklist check uses. -/
def CmplHandler.handlerName : CmplHandler → String
  | CmplHandler.html_elements_attributes => "html_elements_attributes"
  | CmplHandler.html_attributes_values => "html_attributes_values"

/- The ordered COMPLETIONS table of TabExpandHandler.completion_handler. -/
def COMPLETIONS : List (ScopeSel × CmplHandler) :=
  [(ScopeSel.HTML_INSIDE_TAG, CmplHandler.html_elements_attributes),
   (ScopeSel.HTML_INSIDE_TAG_ATTRIBUTE, CmplHandler.html_attributes_values)]

/- The loop of TabExpandHandler.completion_handler: a blacklisted handler
   is skipped with continue; otherwise the first handler whose selector
   matches at the caret or one position before it is returned. ms models
   view.match_selector. -/
def find_completion_handler (ms : Int → ScopeSel → Bool) (black_list : List String)
    (pos : Int) : List (ScopeSel × CmplHandler) → Option CmplHandler
  | [] => Option.none
  | (sub_selector, handler) :: rest =>
    if black_list.contains handler.handlerName then
      find_completion_handler ms black_list pos rest
    else if ms pos sub_selector || ms (pos - 1) sub_selector then some handler
    else find_completion_handler ms black_list pos rest

/- Models TabExpandHandler.completion_handler. -/
def completion_handler (ms : Int → ScopeSel → Bool) (black_list : List String)
    (pos : Int) : Option CmplHandler :=
  find_completion_handler ms black_list pos COMPLETIONS

/-- C6: completion_handler returns the first of the ordered pairs
(HTML_INSIDE_TAG with html_elements_attributes, then
HTML_INSIDE_TAG_ATTRIBUTE with html_attributes_values) whose function
name is not blacklisted and whose selector matches at the caret or one
position before it, and None when no pair qualifies. -/
theorem claim6_completion_handler (ms : Int → ScopeSel → Bool)
    (black_list : List String) (pos : Int) :
    completion_handler ms black_list pos =
      if !black_list.contains "html_elements_attributes"
          && (ms pos ScopeSel.HTML_INSIDE_TAG
              || ms (pos - 1) ScopeSel.HTML_INSIDE_TAG) then
        some CmplHandler.html_elements_attributes
      else if !black_list.contains "html_attributes_values"
          && (ms pos ScopeSel.HTML_INSIDE_TAG_ATTRIBUTE
              || ms (pos - 1) ScopeSel.HTML_INSIDE_TAG_ATTRIBUTE) then
        some CmplHandler.html_attributes_values
      else Option.none := by
  by_cases hb1 : "html_elements_attributes" ∈ black_list <;>
  by_cases hb2 : "html_attributes_values" ∈ black_list <;>
  cases h3 : ms pos ScopeSel.HTML_INSIDE_TAG <;>
  cases h4 : ms (pos - 1) ScopeSel.HTML_INSIDE_TAG <;>
  cases h5 : ms pos ScopeSel.HTML_INSIDE_TAG_ATTRIBUTE <;>
  cases h6 : ms (pos - 1) ScopeSel.HTML_INSIDE_TAG_ATTRIBUTE <;>
  simp [completion_handler, find_completion_handler, COMPLETIONS,
    CmplHandler.handlerName, hb1, hb2, h3, h4, h5, h6]

/-- Modelled from the spec at its boundary: the environment of one
completion or context query. match_selector and caret model the host
view; tag_at_caret and attr_at_caret are the results of the excluded
completions module queries find_tag_name and find_attribute_name at the
caret; the two tables are its static element-attribute and
attribute-value completion dictionaries keyed by tag and attribute name;
the remaining fields are the relevant settings values. -/
structure QEnv where
  match_selector : Int → ScopeSel → Bool
  caret : Int
  tag_at_caret : Option String
  attr_at_caret : Option String
  HTML_ELEMENTS_ATTRIBUTES : List (String × List String)
  HTML_ATTRIBUTES_VALUES : List (String × List String)
  disable_completions : Bool
  completions_blacklist : List String
  disable_tab_abbreviations_for_scopes : String

/- Models TabExpandHandler.correct_syntax: the caret position matches the
   Emmet scope selector. -/
def correct_syntax_check (env : QEnv) : Bool :=
  env.match_selector env.caret ScopeSel.EMMET_SCOPE

/- Models TabExpandHandler.html_elements_attributes: one completion entry
   per attribute listed for the enclosing tag in the static table, and no
   entry when the tag is unknown or absent. -/
def html_elements_attributes (env : QEnv) : List (String × String × String) :=
  let values := match env.tag_at_caret with
    | some tag => (env.HTML_ELEMENTS_ATTRIBUTES.lookup tag).getD []
    | Option.none => []
  values.map (fun v => (v, v ++ "\t@" ++ v, v ++ "=\"$1\""))

/- Models TabExpandHandler.html_attributes_values. -/
def html_attributes_values (env : QEnv) : List (String × String × String) :=
  let values := match env.attr_at_caret with
    | some attr => (env.HTML_ATTRIBUTES_VALUES.lookup attr).getD []
    | Option.none => []
  values.map (fun v => (v, v ++ "\t@=" ++ v, v))

/- Models TabExpandHandler.on_query_completions. -/
def on_query_completions (env : QEnv) : List (String × String × String) :=
  if !correct_syntax_check env || env.disable_completions then []
  else
    match completion_handler env.match_selector env.completions_blacklist
        env.caret with
    | some CmplHandler.html_elements_attributes => html_elements_attributes env
    | some CmplHandler.html_attributes_values => html_attributes_values env
    | Option.none => []

/-- C7: on_query_completions returns the empty list when the caret scope
does not match the Emmet scope or completions are disabled; otherwise,
when the element-attribute handler is selected, the completions are
exactly one entry per attribute listed for the enclosing tag in the
static table, and an unknown or absent tag yields the empty list. -/
theorem claim7_on_query_completions (env : QEnv) (tag : String)
    (attrs : List String) (h1 : correct_syntax_check env = true)
    (h2 : env.disable_completions = false) :
    (∀ env2 : QEnv,
        correct_syntax_check env2 = false ∨ env2.disable_completions = true →
        on_query_completions env2 = [])
  ∧ (completion_handler env.match_selector env.completions_blacklist env.caret
        = some CmplHandler.html_elements_attributes →
      ((env.tag_at_caret = some tag →
          env.HTML_ELEMENTS_ATTRIBUTES.lookup tag = some attrs →
          on_query_completions env
            = attrs.map (fun v => (v, v ++ "\t@" ++ v, v ++ "=\"$1\"")))
        ∧ (env.tag_at_caret = Option.none → on_query_completions env = [])
        ∧ (env.tag_at_caret = some tag →
            env.HTML_ELEMENTS_ATTRIBUTES.lookup tag = Option.none →
            on_query_completions env = []))) := by
  constructor
  · intro env2 h
    rcases h with h | h <;> simp [on_query_completions, h]
  · intro hch
    refine ⟨?_, ?_, ?_⟩
    · intro ht hl
      simp [on_query_completions, h1, h2, hch, html_elements_attributes, ht, hl]
    · intro ht
      simp [on_query_completions, h1, h2, hch, html_elements_attributes, ht]
    · intro ht hl
      simp [on_query_completions, h1, h2, hch, html_elements_attributes, ht, hl]

/- Concrete environment used by the witness of claim 7. -/
def sampleEnv : QEnv where
  match_selector := fun _ s =>
    match s with
    | ScopeSel.EMMET_SCOPE => true
    | ScopeSel.HTML_INSIDE_TAG => true
    | _ => false
  caret := 5
  tag_at_caret := some "a"
  attr_at_caret := Option.none
  HTML_ELEMENTS_ATTRIBUTES := [("a", ["href", "title"])]
  HTML_ATTRIBUTES_VALUES := []
  disable_completions := false
  completions_blacklist := []
  disable_tab_abbreviations_for_scopes := ""

/-- Witness for claim 7: inside an anchor tag the completions are one
entry per attribute of the static table row for the tag a. -/
theorem claim7_on_query_completions_witness :
    on_query_completions sampleEnv
      = [("href", "href\t@href", "href=\"$1\""),
         ("title", "title\t@title", "title=\"$1\"")] := by
  have h := claim7_on_query_completions sampleEnv "a" ["href", "title"] rfl rfl
  have h2 := (h.2 (by decide)).1 rfl (by decide)
  simpa using h2

/- Outcome of on_query_context: noAction models returning False without
   invoking the engine expand action; ranExpand models the call of
   pyRunAction with expand_abbreviation, whose result is returned. -/
inductive QCResult where
  | noAction : QCResult
  | ranExpand : QCResult
deriving DecidableEq

/- Models TabExpandHandler.on_query_context. -/
def on_query_context (env : QEnv) (key : String) : QCResult :=
  if key ≠ "is_abbreviation" then QCResult.noAction
  else if env.disable_completions = false ∧ correct_syntax_check env = true
      ∧ (completion_handler env.match_selector env.completions_blacklist
          env.caret).isSome = true then
    QCResult.noAction
  else if env.disable_tab_abbreviations_for_scopes ≠ ""
      ∧ env.match_selector env.caret
          (ScopeSel.other env.disable_tab_abbreviations_for_scopes) = true then
    QCResult.noAction
  else QCResult.ranExpand

/-- C10: on_query_context invokes the engine expand action exactly when
the key is is_abbreviation, no enabled completion handler applies at the
caret under the Emmet scope, and the caret does not match a non-empty
disable_tab_abbreviations_for_scopes selector; under any of the guards it
returns False without invoking the expand action. -/
theorem claim10_on_query_context (env : QEnv) (key : String) :
    (on_query_context env key = QCResult.ranExpand ↔
      (key = "is_abbreviation"
        ∧ ¬(env.disable_completions = false ∧ correct_syntax_check env = true
            ∧ (completion_handler env.match_selector env.completions_blacklist
                env.caret).isSome = true)
        ∧ ¬(env.disable_tab_abbreviations_for_scopes ≠ ""
            ∧ env.match_selector env.caret
                (ScopeSel.other env.disable_tab_abbreviations_for_scopes)
                  = true)))
  ∧ (on_query_context env key = QCResult.noAction
      ∨ on_query_context env key = QCResult.ranExpand) := by
  unfold on_query_context
  constructor
  · split_ifs with g1 g2 g3 <;> simp_all
  · split_ifs <;> simp

/-- Python value held by a settings entry, with Python truthiness. -/
inductive PyVal where
  | pynone : PyVal
  | pybool : Bool → PyVal
  | pyint : Int → PyVal
  | pystr : String → PyVal
  | pylist : List PyVal → PyVal
  | pydict : List (String × PyVal) → PyVal

def PyVal.truthy : PyVal → Bool
  | PyVal.pynone => false
  | PyVal.pybool b => b
  | PyVal.pyint n => n != 0
  | PyVal.pystr s => s != ""
  | PyVal.pylist xs => !xs.isEmpty
  | PyVal.pydict xs => !xs.isEmpty

/- The recognised keys update_settings forwards to the engine. -/
def SETTINGS_KEYS : List String :=
  ["snippets", "preferences", "syntaxProfiles", "profiles"]

/- Models the payload loop of update_settings: for each recognised key, a
   truthy settings value is copied into the payload, which is then dumped
   to JSON and loaded into the engine. The settings store is the host
   key-value store, modelled as a total function with pynone standing for
   an absent key, the default of settings.get. -/
def update_settings_payload (settings : String → PyVal) : List (String × PyVal) :=
  SETTINGS_KEYS.foldl
    (fun payload k =>
      if (settings k).truthy then payload ++ [(k, settings k)] else payload)
    []

lemma payload_foldl_eq (settings : String → PyVal) :
    ∀ (ks : List String) (acc : List (String × PyVal)),
      ks.foldl (fun payload k =>
          if (settings k).truthy then payload ++ [(k, settings k)] else payload)
        acc
        = acc ++ (ks.filter (fun k => (settings k).truthy)).map
            (fun k => (k, settings k)) := by
  intro ks
  induction ks with
  | nil => intro acc; simp
  | cons k ks ih =>
    intro acc
    by_cases h : (settings k).truthy <;>
      simp [List.foldl_cons, List.filter_cons, h, ih]

/-- C5: the user-data payload update_settings loads into the engine holds
exactly the pairs (k, v) with k among snippets, preferences,
syntaxProfiles and profiles whose settings value v is present and truthy;
any other settings key is never forwarded, and a missing key (value
pynone, hence falsy) is simply absent from the payload. -/
theorem claim5_update_settings (settings : String → PyVal) (k : String)
    (v : PyVal) :
    (k, v) ∈ update_settings_payload settings ↔
      (k ∈ SETTINGS_KEYS ∧ settings k = v ∧ (settings k).truthy = true) := by
  rw [update_settings_payload, payload_foldl_eq]
  simp only [List.nil_append, List.mem_map, List.mem_filter]
  constructor
  · rintro ⟨k2, ⟨hk, ht⟩, heq⟩
    rw [Prod.ext_iff] at heq
    obtain ⟨hk1, hv⟩ := heq
    simp only at hk1 hv
    subst hk1
    exact ⟨hk, hv, ht⟩
  · rintro ⟨hk, hv, ht⟩
    exact ⟨k, ⟨hk, ht⟩, by rw [hv]⟩
